import Mathlib

/-!
# Verification of the `flexx.event` reactive component framework

A shallow embedding of the `flexx.event` core: the event loop with its
action/reaction phases, the component mutation channel, array-mutation
replication, connection-string dynamism, implicit dependency tracking,
label-based dispatch ordering, and disposal.  The repository's `src` tree
contains only `flexx/event/__init__.py` (the package docstring and the
re-exports); the implementation modules (`_loop`, `_component`, `_reaction`,
`_action`, `_property`) are absent, so the operational definitions below are
modelled from the specification and from the code blocks embedded in the
package docstring, as noted on each definition.

The file is organised as definitions first (the embedding) and then the
theorems about them.
-/

namespace FlexxEvent

/-! ## Array mutations and `mutate_array`

The four in-place mutation kinds of a list property: `set`, `insert`,
`remove`, `replace`.  A property-change event for an array mutation carries
the mutation kind, the index, and the objects (or, for `remove`, the count).
-/

/-- The payload of an array property-change event: mutation kind together
with `index` and `objects` (for `remove`, `objects` is an element count). -/
inductive ArrayMutation (α : Type) where
  | set (objects : List α)
  | insert (index : Nat) (objects : List α)
  | remove (index : Nat) (count : Nat)
  | replace (index : Nat) (objects : List α)
deriving DecidableEq, Repr

/-- Python slice assignment `l[i:j] = xs` for `0 ≤ i ≤ j` (indices clamp to
the list length, as in Python). -/
def setSlice {α : Type} (l : List α) (i j : Nat) (xs : List α) : List α :=
  let i := min i l.length
  let j := min (max j i) l.length
  l.take i ++ xs ++ l.drop j

/-- Replication helper `mutate_array(items, ev)`: apply an upstream array
mutation to a local list.  Follows the replication code block in the package docstring
(`src/flexx/event/__init__.py`, the `track_array` reaction): `set` assigns
`items[:] = ev.objects`; `insert` does `items[i:i] = objects`; `remove`
does `items[i:i+count] = []`; `replace` does `items[i:i+len(objects)] =
objects`. -/
def mutate_array {α : Type} (items : List α) (ev : ArrayMutation α) : List α :=
  match ev with
  | .set objects => objects
  | .insert i objects => setSlice items i i objects
  | .remove i count => setSlice items i (i + count) []
  | .replace i objects => setSlice items i (i + objects.length) objects

/-- Errors raised by the core. -/
inductive MutError where
  | invariantError
deriving DecidableEq, Repr

/-- Modelled from the spec: the array branch of `Component._mutate`
(`_component.py` is not under `src`).  Spec §4.2: `set` assigns; `insert`
splices the given sequence into the list at `index`; `remove` deletes
`count` items starting at `index`; `replace` splice-replaces
`len(value)` items starting at `index`; an out-of-range `index` is an
error.  On success it returns the new property value together with the
emitted event payload. -/
def mutateListProp {α : Type} (current : List α) (m : ArrayMutation α) :
    Except MutError (List α × ArrayMutation α) :=
  match m with
  | .set objects => .ok (objects, m)
  | .insert i objects =>
      if i ≤ current.length then
        .ok (current.take i ++ objects ++ current.drop i, m)
      else .error .invariantError
  | .remove i count =>
      if i + count ≤ current.length then
        .ok (current.take i ++ current.drop (i + count), m)
      else .error .invariantError
  | .replace i objects =>
      if i + objects.length ≤ current.length then
        .ok (current.take i ++ objects ++ current.drop (i + objects.length), m)
      else .error .invariantError

/-! ## Components, scalar properties and the mutation channel

Components are identified by `CompId`; a scalar property store maps
`(component, property-name)` pairs to integer values.  A property-change
event carries `source`, `type` (the property name), `old_value` and
`new_value`, as described by the spec's data model (§3) and the package
docstring. -/

abbrev CompId := Nat
abbrev PropName := String

/-- A scalar property-change event: `source`, `type` (= property name),
`old_value`, `new_value`. -/
structure ChangeEvent where
  source : CompId
  type : PropName
  old_value : Int
  new_value : Int
deriving DecidableEq, Repr

/-- The property store: an association list from `(component, property)`
to the current value. -/
abbrev Store := List ((CompId × PropName) × Int)

def storeGet : Store → CompId × PropName → Int
  | [], _ => 0
  | (k, v) :: rest, q => if k = q then v else storeGet rest q

def storeSet : Store → CompId × PropName → Int → Store
  | [], q, v => [(q, v)]
  | (k, w) :: rest, q, v =>
      if k = q then (q, v) :: rest else (k, w) :: storeSet rest q v

/-- The execution context seen by the mutation channel: whether an action
frame is executing, whether the component's construction frame is active,
and whether the loop is in the reaction phase. -/
structure MutCtx where
  inActionFrame : Bool
  inConstructionFrame : Bool
  inReactionPhase : Bool
deriving DecidableEq, Repr

/-- Modelled from the spec: `Component._mutate` for scalar (`set`)
mutations (`_component.py` is not under `src`).  Spec §4.2: a mutation is
permitted only from an active action frame or from the construction frame,
and spec §3 invariant 1: only when `in_reaction_phase = false`; any other
attempt raises an `InvariantError` and the property is not assigned.  On
success the property is assigned and a change event with
`old_value`/`new_value` is emitted. -/
def mutateChannel (ctx : MutCtx) (store : Store) (c : CompId) (p : PropName)
    (v : Int) : Store × List ChangeEvent × Option MutError :=
  if (ctx.inActionFrame || ctx.inConstructionFrame) && !ctx.inReactionPhase then
    let old := storeGet store (c, p)
    (storeSet store (c, p) v, [⟨c, p, old, v⟩], none)
  else
    (store, [], some .invariantError)

/-! ## The loop: actions, reactions, phases and dispatch ordering

Modelled from the spec (`_loop.py`, `_action.py` and `_reaction.py` are not
under `src`): spec §4.1 — a round drains the action queue (each action runs
synchronously, its mutations emit events that append to reaction buffers);
then `in_reaction_phase := true` and the pending reactions run in ascending
`(label or name, insertion sequence)` order with their coalesced buffered
events; actions invoked in this phase are enqueued, not executed. -/

/-- Lexicographic order on lists of characters (strict). -/
def charListLt : List Char → List Char → Bool
  | [], [] => false
  | [], _ :: _ => true
  | _ :: _, [] => false
  | a :: as, b :: bs =>
      if a < b then true
      else if b < a then false
      else charListLt as bs

/-- Lexicographic order on strings (strict), used for label keys. -/
def strLt (a b : String) : Bool := charListLt a.data b.data

/-- A scalar mutation operation inside an action body. -/
inductive MutOp where
  | setVal (v : Int)
  | incr
deriving DecidableEq, Repr

/-- One step of an action body: mutate a property through the channel. -/
structure AStep where
  comp : CompId
  prop : PropName
  op : MutOp
deriving DecidableEq, Repr

/-- One step of a reaction body: invoke an action (by name) or read a
property. -/
inductive RStep where
  | invoke (a : String)
  | readProp (c : CompId) (p : PropName)
deriving DecidableEq, Repr

/-- A reaction: its name, its effective label, the `(component, event
type)` connections, and its body. -/
structure ReactionDef where
  name : String
  label : String
  conns : List (CompId × PropName)
  body : List RStep
deriving DecidableEq, Repr

/-- Modelled from the spec (§4.6): the label defaults to the reaction's
own name; `:label` overrides it. -/
def mkReactionDef (name : String) (label : Option String)
    (conns : List (CompId × PropName)) (body : List RStep) : ReactionDef :=
  ⟨name, label.getD name, conns, body⟩

/-- A program: named action bodies, and the reactions in declaration order
(the position in the list is the insertion sequence). -/
structure Program where
  actions : List (String × List AStep)
  reactions : List ReactionDef
deriving DecidableEq, Repr

def lookupAction : List (String × List AStep) → String → List AStep
  | [], _ => []
  | (n, b) :: rest, a => if n = a then b else lookupAction rest a

def reactionAt (prog : Program) (i : Nat) : ReactionDef :=
  prog.reactions.getD i ⟨"", "", [], []⟩

/-- The dispatch key of a scheduled reaction: its label (which defaults to
its name) with the insertion sequence as tiebreak. -/
def keyOf (prog : Program) (i : Nat) : String × Nat :=
  ((reactionAt prog i).label, i)

/-- Strict ascending order on dispatch keys: label lexicographically,
insertion sequence as tiebreak. -/
def keyLtb (a b : String × Nat) : Bool :=
  strLt a.1 b.1 || (decide (a.1 = b.1) && decide (a.2 < b.2))

/-- Non-strict ascending order on dispatch keys. -/
def keyLe (a b : String × Nat) : Prop := keyLtb a b = true ∨ a = b

/-- The pending-reaction queue: reaction indices with their buffered
events, kept in ascending key order. -/
abbrev Pending := List (Nat × List ChangeEvent)

/-- Ascending dispatch order between two queue entries. -/
def dispatchLe (prog : Program) (x y : Nat × List ChangeEvent) : Prop :=
  keyLe (keyOf prog x.1) (keyOf prog y.1)

def pendingHas (i : Nat) : Pending → Bool
  | [] => false
  | (j, _) :: rest => decide (j = i) || pendingHas i rest

/-- Ordered insert of a newly scheduled reaction into the pending queue. -/
def insertPending (prog : Program) (entry : Nat × List ChangeEvent) :
    Pending → Pending
  | [] => [entry]
  | x :: rest =>
      if keyLtb (keyOf prog entry.1) (keyOf prog x.1) then entry :: x :: rest
      else x :: insertPending prog entry rest

/-- Append `e` to the buffer of entry `x` when `x` is reaction `i`. -/
def bufferAdd (i : Nat) (e : ChangeEvent) (x : Nat × List ChangeEvent) :
    Nat × List ChangeEvent :=
  if x.1 = i then (x.1, x.2 ++ [e]) else x

/-- Append an event to the buffer of an already scheduled reaction. -/
def addEventTo (i : Nat) (e : ChangeEvent) (q : Pending) : Pending :=
  q.map (bufferAdd i e)

/-- The reactions connected to an event's `(source, type)`. -/
def connectedIds (prog : Program) (e : ChangeEvent) : List Nat :=
  (List.range prog.reactions.length).filter
    (fun i => decide ((e.source, e.type) ∈ (reactionAt prog i).conns))

/-- Emission: every connected reaction either gets the event appended to
its buffer (if already pending) or is inserted into the queue in key
order with a fresh one-event buffer. -/
def scheduleEvent (prog : Program) (pending : Pending) (e : ChangeEvent) :
    Pending :=
  (connectedIds prog e).foldl
    (fun pend i =>
      if pendingHas i pend then addEventTo i e pend
      else insertPending prog (i, [e]) pend)
    pending

/-- The loop state: property store, FIFO action queue, ordered pending
reaction queue, the `in_reaction_phase` flag, and observation logs of all
emitted change events and of all reaction invocations (name with the
delivered events). -/
structure LoopState where
  store : Store
  actionQueue : List String
  pending : Pending
  inReactionPhase : Bool
  emitted : List ChangeEvent
  invoked : List (String × List ChangeEvent)
deriving DecidableEq, Repr

def initState (store : Store) : LoopState :=
  ⟨store, [], [], false, [], []⟩

/-- Outer invocation of an action (caller is neither an action nor a
reaction): the call is captured on the action queue (spec §4.4). -/
def invokeFromOuter (s : LoopState) (a : String) : LoopState :=
  { s with actionQueue := s.actionQueue ++ [a] }

/-- One mutation step executed inside an action frame: the mutation
channel assigns the property and the emitted change event is appended to
the buffers of the connected reactions. -/
def runAStep (prog : Program) (s : LoopState) (st : AStep) : LoopState :=
  let old := storeGet s.store (st.comp, st.prop)
  let newv := match st.op with
    | .setVal v => v
    | .incr => old + 1
  let res := mutateChannel ⟨true, false, false⟩ s.store st.comp st.prop newv
  { s with
    store := res.1
    emitted := s.emitted ++ res.2.1
    pending := res.2.1.foldl (scheduleEvent prog) s.pending }

/-- Execute one action synchronously (its own action frame). -/
def runAction (prog : Program) (s : LoopState) (a : String) : LoopState :=
  (lookupAction prog.actions a).foldl (runAStep prog) s

/-- Phase 1 of a round: drain the action queue, executing each action
synchronously. -/
def processActions (prog : Program) (s : LoopState) : LoopState :=
  s.actionQueue.foldl (runAction prog) { s with actionQueue := [] }

/-- One step of a reaction body during the reaction phase: an action
invocation is enqueued (not executed); a property read leaves the state
untouched. -/
def runRStep (s : LoopState) (st : RStep) : LoopState :=
  match st with
  | .invoke a => { s with actionQueue := s.actionQueue ++ [a] }
  | .readProp _ _ => s

/-- Dispatch one scheduled reaction with its coalesced buffered events. -/
def runReaction (prog : Program) (s : LoopState)
    (entry : Nat × List ChangeEvent) : LoopState :=
  let r := reactionAt prog entry.1
  let s1 := { s with invoked := s.invoked ++ [(r.name, entry.2)] }
  r.body.foldl runRStep s1

/-- Phase 2 of a round: set `in_reaction_phase`, run every pending
reaction in queue order with its buffered events, and clear the flag. -/
def processReactions (prog : Program) (s : LoopState) : LoopState :=
  let q := s.pending
  let s1 := { s with pending := [], inReactionPhase := true }
  let s2 := q.foldl (runReaction prog) s1
  { s2 with inReactionPhase := false }

/-- One full round: drain actions, then reactions (spec §4.1). -/
def runRound (prog : Program) (s : LoopState) : LoopState :=
  processReactions prog (processActions prog s)

/-- The action names that the steps of a reaction body invoke. -/
def invokesOf : List RStep → List String
  | [] => []
  | .invoke a :: rest => a :: invokesOf rest
  | .readProp _ _ :: rest => invokesOf rest

/-- All action names invoked by the bodies of the queued reactions. -/
def invokesOfPending (prog : Program) : Pending → List String
  | [] => []
  | entry :: rest =>
      invokesOf (reactionAt prog entry.1).body ++ invokesOfPending prog rest

/-- Calling a reaction manually (e.g. `ob.handle_foo()`): the body runs
with zero events. -/
def manualCall (prog : Program) (s : LoopState) (i : Nat) : LoopState :=
  runReaction prog s (i, [])

/-! ## Concrete scenario programs -/

/-- Scenario for C3: a component (id 0) with `foo` (`AnyProp`, default 8,
settable) and `bar` (`IntProp`, default 0), and an action `inc` that does
`_mutate_bar(bar + 1)`. -/
def progC3 : Program :=
  ⟨[("inc", [⟨0, "bar", .incr⟩])], []⟩

def storeC3 : Store := [((0, "foo"), 8), ((0, "bar"), 0)]

/-- Scenario for C4: reactions `greet` (default label = its name) and
`aa_greet` (label `aa`), both subscribed to `first_name` of component 0;
`greet` is declared first (insertion sequence 0). -/
def progC4 : Program :=
  ⟨[("set_first_name", [⟨0, "first_name", .setVal 3⟩])],
   [mkReactionDef "greet" none [(0, "first_name")] [],
    mkReactionDef "aa_greet" (some "aa") [(0, "first_name")] []]⟩

def storeC4 : Store := [((0, "first_name"), 0)]

/-- Scenario for C9: one reaction `on_foo` connected to `foo` of
component 0, and two actions that set `foo` to 3 and to 5. -/
def progC9 : Program :=
  ⟨[("set_foo3", [⟨0, "foo", .setVal 3⟩]),
    ("set_foo5", [⟨0, "foo", .setVal 5⟩])],
   [mkReactionDef "on_foo" none [(0, "foo")] []]⟩

def storeC9 : Store := [((0, "foo"), 0)]

/-! ## Dynamism: path connection specs over component-valued properties

Modelled from the spec (§4.6, §4.7 and §3 invariant 4; `_reaction.py` is
not under `src`): a parsed connection spec is a sequence of segments with
star levels; a reaction's connection set is a pure function of the parsed
spec and the current values of the properties on the path, so it is
automatically rebuilt whenever those properties change. -/

/-- A property value for path resolution: a scalar, a component reference,
or a list of component references. -/
inductive PVal where
  | int (i : Int)
  | comp (c : CompId)
  | comps (cs : List CompId)
deriving DecidableEq, Repr

/-- Store of component-valued (and scalar) properties. -/
abbrev CStore := List ((CompId × PropName) × PVal)

def cstoreGet : CStore → CompId × PropName → PVal
  | [], _ => .int 0
  | (k, v) :: rest, q => if k = q then v else cstoreGet rest q

def cstoreSet : CStore → CompId × PropName → PVal → CStore
  | [], q, v => [(q, v)]
  | (k, w) :: rest, q, v =>
      if k = q then (q, v) :: rest else (k, w) :: cstoreSet rest q v

/-- The star level of a path segment: none, `*`, or `**`. -/
inductive StarLevel where
  | plain
  | one
  | two
deriving DecidableEq, Repr

/-- A parsed path segment: a property (or terminal event) name and a star
level. -/
structure Segment where
  name : PropName
  star : StarLevel
deriving DecidableEq, Repr

/-- Recursive expansion of a `**` segment: the components in the named
list property, together with their own recursive expansion (bounded by
fuel, since the component graph may have cycles). -/
def expandTwo (store : CStore) (nm : PropName) : Nat → CompId → List CompId
  | 0, _ => []
  | fuel + 1, c =>
      match cstoreGet store (c, nm) with
      | .comps xs => xs ++ (xs.map (expandTwo store nm fuel)).flatten
      | _ => []

/-- The components a non-terminal segment resolves to from component `c`:
a plain segment follows a component-valued property; a `*` segment
connects to every element of a list-valued property; `**` expands
recursively. -/
def resolveSeg (store : CStore) (fuel : Nat) (c : CompId) (seg : Segment) :
    List CompId :=
  match seg.star with
  | .plain =>
      match cstoreGet store (c, seg.name) with
      | .comp x => [x]
      | _ => []
  | .one =>
      match cstoreGet store (c, seg.name) with
      | .comps xs => xs
      | _ => []
  | .two => expandTwo store seg.name fuel c

/-- The `(component, event type)` endpoints a parsed spec resolves to from
a root component, walking the current property values on the path; the
terminal segment names the event type. -/
def resolveEndpoints (store : CStore) (fuel : Nat) :
    List Segment → CompId → List (CompId × PropName)
  | [], _ => []
  | [last], c => [(c, last.name)]
  | seg :: s2 :: rest, c =>
      ((resolveSeg store fuel c seg).map
        (resolveEndpoints store fuel (s2 :: rest))).flatten

/-- How many times an emission of event `t` on component `src` is
delivered to a reaction whose spec resolves from `root`. -/
def deliveryCount (store : CStore) (fuel : Nat) (root : CompId)
    (spec : List Segment) (src : CompId) (t : PropName) : Nat :=
  (resolveEndpoints store fuel spec root).count (src, t)

/-- The parsed form of the connection string `"children*.foo"`. -/
def specChildrenFoo : List Segment :=
  [⟨"children", .one⟩, ⟨"foo", .plain⟩]

/-- Scenario for C6: parent component 0 whose `children` property is
`[c1, c2]` (components 1 and 2). -/
def storeKids : CStore := [((0, "children"), .comps [1, 2])]

/-! ## Implicit reactions: dependency tracking

Modelled from the spec (§4.7 implicit mode; `_reaction.py` is not under
`src`): on each invocation a read tracker records every property access;
afterwards the recorded set becomes the reaction's new connection set,
diffed against the previous set (stale connections unsubscribed, new ones
subscribed). -/

/-- An implicit reaction's current connection set. -/
structure ImplicitReaction where
  conns : List (CompId × PropName)
deriving DecidableEq, Repr

/-- Diff-update of a connection set: keep the current connections still
read, unsubscribe those no longer read, subscribe the newly read ones. -/
def applyDiff (cur new : List (CompId × PropName)) :
    List (CompId × PropName) :=
  cur.filter (fun x => decide (x ∈ new)) ++
    new.filter (fun x => decide (x ∉ cur))

/-- Run an implicit reaction: its body, under the read tracker, produces
the list of `(component, property)` reads given the current store; the
connection set is diff-updated to the recorded reads, and the body is
called with zero events. -/
def runImplicit (store : CStore)
    (body : CStore → List (CompId × PropName)) (r : ImplicitReaction) :
    ImplicitReaction × List ChangeEvent :=
  (⟨applyDiff r.conns (body store)⟩, [])

/-! ## Component disposal

Modelled from the spec (§4.2 Disposal and §3): `dispose()` is idempotent;
after the first call mutations and emissions become no-ops, the owned
reactions are disposed, connections are dropped, and one synthetic
`"dispose"` event goes to the listeners that were still connected. -/

/-- A reaction owned by a component, with its disposal flag. -/
structure OwnedReaction where
  name : String
  disposed : Bool
deriving DecidableEq, Repr

/-- A component for the disposal model: disposal flag, scalar properties,
owned reactions, and incoming connections `(event type, reaction name)`. -/
structure Component where
  disposed : Bool
  props : List (PropName × Int)
  owned : List OwnedReaction
  listeners : List (PropName × String)
deriving DecidableEq, Repr

/-- An emitted event together with the reactions it was delivered to. -/
structure EmittedEvent where
  type : PropName
  recipients : List String
deriving DecidableEq, Repr

def propsSet : List (PropName × Int) → PropName → Int → List (PropName × Int)
  | [], p, v => [(p, v)]
  | (q, w) :: rest, p, v =>
      if q = p then (p, v) :: rest else (q, w) :: propsSet rest p v

/-- The recipients of an event of type `t` among a listener table. -/
def recipientsFor (listeners : List (PropName × String)) (t : PropName) :
    List String :=
  (listeners.filter (fun l => decide (l.1 = t))).map Prod.snd

/-- Emission on a component: a no-op once disposed. -/
def Component.emit (c : Component) (t : PropName) :
    Component × List EmittedEvent :=
  if c.disposed then (c, [])
  else (c, [⟨t, recipientsFor c.listeners t⟩])

/-- Property mutation on a component: a no-op once disposed. -/
def Component.mutateProp (c : Component) (p : PropName) (v : Int) :
    Component × List EmittedEvent :=
  if c.disposed then (c, [])
  else ({ c with props := propsSet c.props p v },
    [⟨p, recipientsFor c.listeners p⟩])

/-- Disposal: on the first call, dispose every owned reaction, drop all
connections, and emit one synthetic `"dispose"` event to the listeners
still connected; on a disposed component it is a no-op. -/
def Component.dispose (c : Component) : Component × List EmittedEvent :=
  if c.disposed then (c, [])
  else
    ({ disposed := true
       props := c.props
       owned := c.owned.map (fun r => { r with disposed := true })
       listeners := [] },
     [⟨"dispose", recipientsFor c.listeners "dispose"⟩])

/-! ## `Component.reaction()` argument normalization

Modelled from the package docstring (`src/flexx/event/__init__.py`, the
`Component.reaction` examples): the handler callable may be passed before
the connection strings (`c.reaction(func, 'foo', 'bar')`) or after them
(`c.reaction('foo', 'bar', func)`).  Callables are identified by an id. -/

/-- An argument to `Component.reaction()`: a connection string or the
handler callable. -/
inductive RArg where
  | str (s : String)
  | fn (f : Nat)
deriving DecidableEq, Repr

/-- The connection strings of an argument list, provided it contains only
strings. -/
def strsOf : List RArg → Option (List String)
  | [] => some []
  | .str s :: rest => (strsOf rest).map (fun l => s :: l)
  | .fn _ :: _ => none

/-- Normalize a `Component.reaction()` argument list: the callable comes
first or last, the remaining arguments are the connection strings (in
order). -/
def splitReactionArgs : List RArg → Option (Nat × List String)
  | [] => none
  | .fn f :: rest => (strsOf rest).map (fun ss => (f, ss))
  | .str s :: rest =>
      match (RArg.str s :: rest).reverse with
      | .fn f :: revFront => (strsOf revFront.reverse).map (fun ss => (f, ss))
      | _ => none

/-- A reaction created by `Component.reaction()`: the handler and the
connection strings it is connected through. -/
structure BoundReaction where
  func : Nat
  connStrings : List String
deriving DecidableEq, Repr

/-- Creation of a reaction by `Component.reaction()` from the argument list. -/
def componentReaction (args : List RArg) : Option BoundReaction :=
  (splitReactionArgs args).map (fun fs => ⟨fs.1, fs.2⟩)

/-! ## Theorems -/

lemma setSlice_eq_of_le {α : Type} (l : List α) (i j : Nat) (xs : List α)
    (hi : i ≤ j) (hj : j ≤ l.length) :
    setSlice l i j xs = l.take i ++ xs ++ l.drop j := by
  unfold setSlice
  have h1 : min i l.length = i := Nat.min_eq_left (le_trans hi hj)
  have h2 : max j i = j := Nat.max_eq_left hi
  have h3 : min j l.length = j := Nat.min_eq_left hj
  simp only [h1, h2, h3]

/-- C5: for each mutation kind in `{set, insert, remove, replace}`, applying
`mutate_array(replica, event)` to a copy of the pre-mutation list, where
`event` is the property-change event produced by the corresponding `_mutate`
call on the source property, yields a list equal to the source property's
post-mutation value. -/
theorem mutate_array_replicates {α : Type} (current post : List α)
    (m ev : ArrayMutation α)
    (h : mutateListProp current m = Except.ok (post, ev)) :
    mutate_array current ev = post := by
  cases m with
  | set objects =>
      simp only [mutateListProp, Except.ok.injEq, Prod.mk.injEq] at h
      obtain ⟨h1, h2⟩ := h
      subst h1; subst h2
      rfl
  | insert i objects =>
      simp only [mutateListProp] at h
      split at h
      case isTrue hle =>
        simp only [Except.ok.injEq, Prod.mk.injEq] at h
        obtain ⟨h1, h2⟩ := h
        subst h1; subst h2
        simp only [mutate_array]
        exact setSlice_eq_of_le current i i objects le_rfl hle
      case isFalse => exact absurd h (by simp)
  | remove i count =>
      simp only [mutateListProp] at h
      split at h
      case isTrue hle =>
        simp only [Except.ok.injEq, Prod.mk.injEq] at h
        obtain ⟨h1, h2⟩ := h
        subst h1; subst h2
        simp only [mutate_array]
        rw [setSlice_eq_of_le current i (i + count) [] (Nat.le_add_right i count) hle]
        simp
      case isFalse => exact absurd h (by simp)
  | replace i objects =>
      simp only [mutateListProp] at h
      split at h
      case isTrue hle =>
        simp only [Except.ok.injEq, Prod.mk.injEq] at h
        obtain ⟨h1, h2⟩ := h
        subst h1; subst h2
        simp only [mutate_array]
        exact setSlice_eq_of_le current i (i + objects.length) objects
          (Nat.le_add_right i objects.length) hle
      case isFalse => exact absurd h (by simp)

/-- Witness for C5 at a concrete input: inserting `[9]` at index 1 of
`[1, 2, 3]` on the source yields `[1, 9, 2, 3]`, and the replica tracks it. -/
theorem mutate_array_replicates_witness :
    mutateListProp ([1, 2, 3] : List Int) (ArrayMutation.insert 1 [9]) =
      Except.ok ([1, 9, 2, 3], ArrayMutation.insert 1 [9]) ∧
    mutate_array ([1, 2, 3] : List Int) (ArrayMutation.insert 1 [9]) = [1, 9, 2, 3] :=
  ⟨rfl, mutate_array_replicates [1, 2, 3] [1, 9, 2, 3]
    (ArrayMutation.insert 1 [9]) (ArrayMutation.insert 1 [9]) rfl⟩

/-- C2: calling the mutation channel when the loop is not inside an
executing action frame (and not in the construction frame) raises an
`InvariantError` and leaves the property value unchanged; mutation
succeeds exactly when `in_reaction_phase` is false and an action frame
(or the construction frame) is active. -/
theorem mutate_outside_action_frame_fails (ctx : MutCtx) (store : Store)
    (c : CompId) (p : PropName) (v : Int) :
    (ctx.inActionFrame = false ∧ ctx.inConstructionFrame = false →
      (mutateChannel ctx store c p v).2.2 = some MutError.invariantError ∧
      (mutateChannel ctx store c p v).1 = store ∧
      (mutateChannel ctx store c p v).2.1 = []) ∧
    ((mutateChannel ctx store c p v).2.2 = none ↔
      ctx.inReactionPhase = false ∧
        (ctx.inActionFrame = true ∨ ctx.inConstructionFrame = true)) := by
  obtain ⟨a, b, r⟩ := ctx
  cases a <;> cases b <;> cases r <;> simp [mutateChannel]

/-- Witness for C2: with no action frame, no construction frame and the
reaction phase off, mutating `bar` on component 0 errors and the store
keeps its value. -/
theorem mutate_outside_action_frame_fails_witness :
    ((⟨false, false, false⟩ : MutCtx).inActionFrame = false ∧
      (⟨false, false, false⟩ : MutCtx).inConstructionFrame = false) ∧
    ((mutateChannel ⟨false, false, false⟩ [((0, "bar"), 0)] 0 "bar" 5).2.2 =
        some MutError.invariantError ∧
      (mutateChannel ⟨false, false, false⟩ [((0, "bar"), 0)] 0 "bar" 5).1 =
        [((0, "bar"), 0)] ∧
      (mutateChannel ⟨false, false, false⟩ [((0, "bar"), 0)] 0 "bar" 5).2.1 = []) :=
  ⟨⟨rfl, rfl⟩,
    (mutate_outside_action_frame_fails ⟨false, false, false⟩
      [((0, "bar"), 0)] 0 "bar" 5).1 ⟨rfl, rfl⟩⟩

lemma foldl_runRStep_store (body : List RStep) (s : LoopState) :
    (body.foldl runRStep s).store = s.store := by
  induction body generalizing s with
  | nil => rfl
  | cons st rest ih => cases st <;> simp [runRStep, ih]

lemma foldl_runRStep_queue (body : List RStep) (s : LoopState) :
    (body.foldl runRStep s).actionQueue = s.actionQueue ++ invokesOf body := by
  induction body generalizing s with
  | nil => simp [invokesOf]
  | cons st rest ih =>
      cases st with
      | invoke a => simp [runRStep, ih, invokesOf]
      | readProp c p => simp [runRStep, ih, invokesOf]

lemma runReaction_store (prog : Program) (s : LoopState)
    (entry : Nat × List ChangeEvent) :
    (runReaction prog s entry).store = s.store := by
  simp [runReaction, foldl_runRStep_store]

lemma runReaction_queue (prog : Program) (s : LoopState)
    (entry : Nat × List ChangeEvent) :
    (runReaction prog s entry).actionQueue =
      s.actionQueue ++ invokesOf (reactionAt prog entry.1).body := by
  simp [runReaction, foldl_runRStep_queue]

lemma foldl_runReaction_store (prog : Program) (q : Pending) (s : LoopState) :
    (q.foldl (runReaction prog) s).store = s.store := by
  induction q generalizing s with
  | nil => rfl
  | cons e rest ih => simp [ih, runReaction_store]

lemma foldl_runReaction_queue (prog : Program) (q : Pending) (s : LoopState) :
    (q.foldl (runReaction prog) s).actionQueue =
      s.actionQueue ++ invokesOfPending prog q := by
  induction q generalizing s with
  | nil => simp [invokesOfPending]
  | cons e rest ih =>
      simp [ih, runReaction_queue, invokesOfPending, List.append_assoc]

/-- C1: while the loop is in the reaction phase, property values are
observed constant (any leading part of the dispatched reactions, and the phase
as a whole, leaves the store untouched), and every action invoked from
within a reaction body is enqueued on the action queue rather than
executed — so its mutations can only become visible in a later round. -/
theorem reaction_phase_state_frozen (prog : Program) :
    (∀ (entries : Pending) (s : LoopState),
        (entries.foldl (runReaction prog) s).store = s.store) ∧
    (∀ s : LoopState,
        (processReactions prog s).store = s.store ∧
        (processReactions prog s).actionQueue =
          s.actionQueue ++ invokesOfPending prog s.pending) := by
  refine ⟨fun entries s => foldl_runReaction_store prog entries s, fun s => ⟨?_, ?_⟩⟩
  · simp [processReactions, foldl_runReaction_store]
  · simp [processReactions, foldl_runReaction_queue]

/-- C3: on a component with `foo = AnyProp(8, settable)` and
`bar = IntProp(0)` and an action `inc` doing `_mutate_bar(bar + 1)`,
invoking `inc()` twice from outer scope and then running the loop
produces exactly two `bar` change events, `(old 0, new 1)` then
`(old 1, new 2)`, and afterwards `bar` is 2. -/
theorem inc_twice_two_events :
    (runRound progC3
        (invokeFromOuter (invokeFromOuter (initState storeC3) "inc") "inc")).emitted =
      [⟨0, "bar", 0, 1⟩, ⟨0, "bar", 1, 2⟩] ∧
    storeGet (runRound progC3
        (invokeFromOuter (invokeFromOuter (initState storeC3) "inc") "inc")).store
      (0, "bar") = 2 := by
  decide

lemma charListLt_false (a b : List Char) (h : charListLt a b = false) :
    charListLt b a = true ∨ a = b := by
  induction a generalizing b with
  | nil => cases b <;> simp_all [charListLt]
  | cons x xs ih =>
      cases b with
      | nil => simp [charListLt]
      | cons y ys =>
          simp only [charListLt] at h
          split at h
          case isTrue => exact absurd h (by simp)
          case isFalse hxy =>
            split at h
            case isTrue hyx => simp [charListLt, hyx]
            case isFalse hyx =>
              rcases ih ys h with h2 | h2
              · left
                simp [charListLt, hxy, hyx, h2]
              · right
                have hc : x = y :=
                  le_antisymm (le_of_not_lt hyx) (le_of_not_lt hxy)
                simp [hc, h2]

lemma strLt_false {a b : String} (h : strLt a b = false) :
    strLt b a = true ∨ a = b := by
  unfold strLt at h ⊢
  rcases charListLt_false a.data b.data h with h2 | h2
  · exact Or.inl h2
  · exact Or.inr (String.ext h2)

lemma keyLtb_false_le {a b : String × Nat} (h : keyLtb a b = false) :
    keyLe b a := by
  unfold keyLtb at h
  simp only [Bool.or_eq_false_iff, Bool.and_eq_false_iff,
    decide_eq_false_iff_not] at h
  obtain ⟨h1, h2⟩ := h
  rcases strLt_false h1 with h3 | h3
  · exact Or.inl (by simp [keyLtb, h3])
  · rcases h2 with h2 | h2
    · exact absurd h3 h2
    · rcases Nat.lt_or_ge b.2 a.2 with hlt | hge
      · exact Or.inl (by simp [keyLtb, h3.symm, hlt])
      · have h4 : a.2 = b.2 := Nat.le_antisymm hge (Nat.le_of_not_lt h2)
        exact Or.inr (Prod.ext h3.symm h4.symm)

lemma insertPending_headOpt (prog : Program) (entry : Nat × List ChangeEvent)
    (q : Pending) :
    (insertPending prog entry q).head? = some entry ∨
      (insertPending prog entry q).head? = q.head? := by
  cases q with
  | nil => exact Or.inl rfl
  | cons x rest =>
      simp only [insertPending]
      split
      · exact Or.inl rfl
      · exact Or.inr rfl

lemma insertPending_chain (prog : Program) (entry : Nat × List ChangeEvent)
    (q : Pending) (h : List.Chain' (dispatchLe prog) q) :
    List.Chain' (dispatchLe prog) (insertPending prog entry q) := by
  induction q with
  | nil => simp [insertPending]
  | cons x rest ih =>
      simp only [insertPending]
      split
      case isTrue hlt =>
        exact List.Chain'.cons (Or.inl hlt) h
      case isFalse hnlt =>
        have hrest := (List.chain'_cons'.mp h).2
        rw [List.chain'_cons']
        refine ⟨?_, ih hrest⟩
        intro y hy
        rcases insertPending_headOpt prog entry rest with h1 | h1
        · rw [h1] at hy
          simp only [Option.mem_def, Option.some.injEq] at hy
          subst hy
          exact keyLtb_false_le (Bool.eq_false_iff.mpr hnlt)
        · rw [h1] at hy
          exact (List.chain'_cons'.mp h).1 y hy

lemma bufferAdd_fst (i : Nat) (e : ChangeEvent) (x : Nat × List ChangeEvent) :
    (bufferAdd i e x).1 = x.1 := by
  unfold bufferAdd; split <;> rfl

lemma addEventTo_chain (prog : Program) (i : Nat) (e : ChangeEvent)
    (q : Pending) (h : List.Chain' (dispatchLe prog) q) :
    List.Chain' (dispatchLe prog) (addEventTo i e q) := by
  unfold addEventTo
  rw [List.chain'_map]
  refine h.imp ?_
  intro a b hab
  unfold dispatchLe at *
  rw [bufferAdd_fst, bufferAdd_fst]
  exact hab

lemma scheduleEvent_chain (prog : Program) (pend : Pending) (e : ChangeEvent)
    (h : List.Chain' (dispatchLe prog) pend) :
    List.Chain' (dispatchLe prog) (scheduleEvent prog pend e) := by
  unfold scheduleEvent
  generalize connectedIds prog e = ids
  induction ids generalizing pend with
  | nil => exact h
  | cons i rest ih =>
      simp only [List.foldl_cons]
      apply ih
      split
      · exact addEventTo_chain prog i e pend h
      · exact insertPending_chain prog (i, [e]) pend h

lemma foldl_scheduleEvent_chain (prog : Program) (events : List ChangeEvent)
    (pend : Pending) (h : List.Chain' (dispatchLe prog) pend) :
    List.Chain' (dispatchLe prog) (events.foldl (scheduleEvent prog) pend) := by
  induction events generalizing pend with
  | nil => exact h
  | cons e rest ih =>
      simp only [List.foldl_cons]
      exact ih _ (scheduleEvent_chain prog pend e h)

/-- C4: reactions triggered by emitted events are dispatched in ascending
`(label or name, insertion sequence)` order — the pending queue built by
scheduling any sequence of events is sorted by the dispatch key — and in
the concrete scenario with `greet` (default label `greet`) and `aa_greet`
(label `aa`) both subscribed to `first_name`, one set of `first_name`
runs `aa_greet` before `greet`. -/
theorem label_order_dispatch :
    (∀ (prog : Program) (events : List ChangeEvent),
        List.Chain' (dispatchLe prog) (events.foldl (scheduleEvent prog) [])) ∧
    ((runRound progC4
        (invokeFromOuter (initState storeC4) "set_first_name")).invoked.map
        Prod.fst = ["aa_greet", "greet"]) := by
  constructor
  · intro prog events
    exact foldl_scheduleEvent_chain prog events [] List.chain'_nil
  · decide

lemma foldl_runRStep_invoked (body : List RStep) (s : LoopState) :
    (body.foldl runRStep s).invoked = s.invoked := by
  induction body generalizing s with
  | nil => rfl
  | cons st rest ih => cases st <;> simp [runRStep, ih]

lemma runReaction_invoked (prog : Program) (s : LoopState)
    (entry : Nat × List ChangeEvent) :
    (runReaction prog s entry).invoked =
      s.invoked ++ [((reactionAt prog entry.1).name, entry.2)] := by
  simp [runReaction, foldl_runRStep_invoked]

lemma foldl_runReaction_invoked (prog : Program) (q : Pending) (s : LoopState) :
    (q.foldl (runReaction prog) s).invoked =
      s.invoked ++ q.map (fun en => ((reactionAt prog en.1).name, en.2)) := by
  induction q generalizing s with
  | nil => simp
  | cons e rest ih =>
      simp [ih, runReaction_invoked, List.append_assoc]

lemma mem_insertPending {prog : Program} {entry x : Nat × List ChangeEvent}
    {q : Pending} (h : x ∈ insertPending prog entry q) :
    x = entry ∨ x ∈ q := by
  induction q with
  | nil => simp [insertPending] at h; exact Or.inl h
  | cons y rest ih =>
      simp only [insertPending] at h
      split at h
      · rcases List.mem_cons.mp h with h1 | h1
        · exact Or.inl h1
        · exact Or.inr h1
      · rcases List.mem_cons.mp h with h1 | h1
        · exact Or.inr (List.mem_cons.mpr (Or.inl h1))
        · rcases ih h1 with h2 | h2
          · exact Or.inl h2
          · exact Or.inr (List.mem_cons.mpr (Or.inr h2))

lemma buffers_ne_nil_ids (prog : Program) (e : ChangeEvent) (ids : List Nat) :
    ∀ pend : Pending, (∀ y ∈ pend, y.2 ≠ []) →
      ∀ x ∈ ids.foldl
        (fun pd i =>
          if pendingHas i pd then addEventTo i e pd
          else insertPending prog (i, [e]) pd) pend,
        x.2 ≠ [] := by
  induction ids with
  | nil => intro pend h x hx; exact h x hx
  | cons i rest ih =>
      intro pend h x hx
      simp only [List.foldl_cons] at hx
      refine ih _ ?_ x hx
      intro y hy
      split at hy
      · rcases List.mem_map.mp hy with ⟨z, hz, hzy⟩
        subst hzy
        unfold bufferAdd
        split
        · simp
        · exact h z hz
      · rcases mem_insertPending hy with h1 | h1
        · subst h1; simp
        · exact h y h1

lemma buffers_ne_nil_scheduleEvent (prog : Program) (pend : Pending)
    (e : ChangeEvent) (h : ∀ y ∈ pend, y.2 ≠ [])
    (x : Nat × List ChangeEvent) (hx : x ∈ scheduleEvent prog pend e) :
    x.2 ≠ [] :=
  buffers_ne_nil_ids prog e (connectedIds prog e) pend h x hx

lemma buffers_ne_nil_foldl (prog : Program) (events : List ChangeEvent)
    (pend : Pending) (h : ∀ y ∈ pend, y.2 ≠ [])
    (x : Nat × List ChangeEvent)
    (hx : x ∈ events.foldl (scheduleEvent prog) pend) : x.2 ≠ [] := by
  induction events generalizing pend with
  | nil => exact h x hx
  | cons e rest ih =>
      simp only [List.foldl_cons] at hx
      exact ih (scheduleEvent prog pend e)
        (fun y hy => buffers_ne_nil_scheduleEvent prog pend e h y hy) hx

/-- C9: a reaction called manually runs its body with zero events; every
reaction the event system schedules carries at least one buffered event
(the reaction phase delivers exactly the buffered events of each queue
entry); and in the concrete scenario where a property is set twice before
the reaction runs, the body is called exactly once, with both events. -/
theorem explicit_reaction_event_delivery :
    (∀ (prog : Program) (s : LoopState) (i : Nat),
        (manualCall prog s i).invoked =
          s.invoked ++ [((reactionAt prog i).name, [])]) ∧
    (∀ (prog : Program) (s : LoopState),
        (processReactions prog s).invoked =
          s.invoked ++ s.pending.map
            (fun en => ((reactionAt prog en.1).name, en.2))) ∧
    (∀ (prog : Program) (events : List ChangeEvent)
        (x : Nat × List ChangeEvent),
        x ∈ events.foldl (scheduleEvent prog) [] → x.2 ≠ []) ∧
    ((runRound progC9
        (invokeFromOuter (invokeFromOuter (initState storeC9) "set_foo3")
          "set_foo5")).invoked =
      [("on_foo", [⟨0, "foo", 0, 3⟩, ⟨0, "foo", 3, 5⟩])]) := by
  refine ⟨?_, ?_, ?_, ?_⟩
  · intro prog s i
    exact runReaction_invoked prog s (i, [])
  · intro prog s
    simp [processReactions, foldl_runReaction_invoked]
  · intro prog events x hx
    exact buffers_ne_nil_foldl prog events [] (by simp) x hx
  · decide

/-- Witness for C9 at a concrete input: the single scheduled entry of the
one-event queue has a nonempty buffer. -/
theorem explicit_reaction_event_delivery_witness :
    ((0, [ChangeEvent.mk 0 "foo" 0 3]) ∈
        ([ChangeEvent.mk 0 "foo" 0 3] : List ChangeEvent).foldl
          (scheduleEvent progC9) []) ∧
    ((0, [ChangeEvent.mk 0 "foo" 0 3]) : Nat × List ChangeEvent).2 ≠ [] :=
  ⟨by decide,
    explicit_reaction_event_delivery.2.2.1 progC9
      [ChangeEvent.mk 0 "foo" 0 3] (0, [ChangeEvent.mk 0 "foo" 0 3])
      (by decide)⟩

lemma resolveEndpoints_terminal (store : CStore) (fuel : Nat)
    (last : Segment) (cs : List CompId) :
    ((cs.map (resolveEndpoints store fuel [last]))).flatten =
      cs.map (fun c => (c, last.name)) := by
  induction cs with
  | nil => rfl
  | cons c rest ih =>
      simp only [List.map_cons, List.flatten_cons, ih]
      simp [resolveEndpoints]

/-- C6: for an explicit reaction with path spec `"children*.foo"` on a
parent whose `children` is `[c1, c2]`: emitting `foo` on `c2` invokes the
reaction once with that single event; after `children` is reassigned to
`[c1, c3]`, emitting `foo` on the original `c2` does not invoke the
reaction and emitting on `c3` does; in general the connection set is
rebuilt from the current value of the `children` property. -/
theorem dynamism_children_star_foo :
    deliveryCount storeKids 8 0 specChildrenFoo 2 "foo" = 1 ∧
    (deliveryCount (cstoreSet storeKids (0, "children") (PVal.comps [1, 3]))
        8 0 specChildrenFoo 2 "foo" = 0 ∧
      deliveryCount (cstoreSet storeKids (0, "children") (PVal.comps [1, 3]))
        8 0 specChildrenFoo 3 "foo" = 1) ∧
    (∀ (store : CStore) (cs : List CompId) (parent : CompId) (fuel : Nat),
        cstoreGet store (parent, "children") = PVal.comps cs →
        resolveEndpoints store fuel specChildrenFoo parent =
          cs.map (fun c => (c, "foo"))) := by
  refine ⟨by decide, ⟨by decide, by decide⟩, ?_⟩
  intro store cs parent fuel h
  simp only [specChildrenFoo, resolveEndpoints]
  rw [show resolveSeg store fuel parent ⟨"children", StarLevel.one⟩ = cs by
    simp [resolveSeg, h]]
  exact resolveEndpoints_terminal store fuel ⟨"foo", StarLevel.plain⟩ cs

/-- Witness for C6: on the concrete store the parent's `children` is
`[1, 2]` and the spec resolves to endpoints `(1, foo), (2, foo)`. -/
theorem dynamism_children_star_foo_witness :
    cstoreGet storeKids (0, "children") = PVal.comps [1, 2] ∧
    resolveEndpoints storeKids 8 specChildrenFoo 0 = [(1, "foo"), (2, "foo")] :=
  ⟨rfl, dynamism_children_star_foo.2.2 storeKids [1, 2] 0 8 rfl⟩

/-- C7: for every implicit reaction, immediately after a run its
connection set equals exactly the set of `(component, property)` pairs the
body read during that run — newly read properties are subscribed, ones no
longer read are unsubscribed — and the body was called with zero events. -/
theorem implicit_reaction_connections (store : CStore)
    (body : CStore → List (CompId × PropName)) (r : ImplicitReaction)
    (cp : CompId × PropName) :
    (cp ∈ (runImplicit store body r).1.conns ↔ cp ∈ body store) ∧
    (runImplicit store body r).2 = [] := by
  constructor
  · simp only [runImplicit, applyDiff, List.mem_append, List.mem_filter,
      decide_eq_true_eq]
    tauto
  · rfl

/-- C8: `dispose()` is idempotent — a second call returns the
once-disposed state unchanged and emits nothing; after the first call
mutations and emissions on the component are no-ops; on a live component
the first call disposes every owned reaction and emits a single synthetic
`"dispose"` event to the listeners that were connected. -/
theorem dispose_idempotent (c : Component) :
    Component.dispose (Component.dispose c).1 = ((Component.dispose c).1, []) ∧
    (Component.dispose c).1.disposed = true ∧
    (∀ p v, Component.mutateProp (Component.dispose c).1 p v =
      ((Component.dispose c).1, [])) ∧
    (∀ t, Component.emit (Component.dispose c).1 t =
      ((Component.dispose c).1, [])) ∧
    (c.disposed = false →
      (∀ r ∈ (Component.dispose c).1.owned, r.disposed = true) ∧
      (Component.dispose c).2 =
        [⟨"dispose", recipientsFor c.listeners "dispose"⟩]) := by
  by_cases hd : c.disposed
  · refine ⟨?_, ?_, ?_, ?_, ?_⟩ <;>
      simp [Component.dispose, Component.mutateProp, Component.emit, hd]
  · simp only [Bool.not_eq_true] at hd
    refine ⟨?_, ?_, ?_, ?_, ?_⟩
    · simp [Component.dispose, hd]
    · simp [Component.dispose, hd]
    · intro p v
      simp [Component.dispose, Component.mutateProp, hd]
    · intro t
      simp [Component.dispose, Component.emit, hd]
    · intro _
      constructor
      · intro r hr
        simp only [Component.dispose, hd, Bool.false_eq_true, if_false,
          List.mem_map] at hr
        obtain ⟨y, _, hyr⟩ := hr
        subst hyr
        rfl
      · simp [Component.dispose, hd]

/-- Witness for C8: disposing a concrete live component with one owned
reaction and a `dispose` listener emits one `"dispose"` event to it. -/
theorem dispose_idempotent_witness :
    (⟨false, [("x", 1)], [⟨"r1", false⟩],
        [("dispose", "obs"), ("foo", "other")]⟩ : Component).disposed = false ∧
    (Component.dispose ⟨false, [("x", 1)], [⟨"r1", false⟩],
        [("dispose", "obs"), ("foo", "other")]⟩).2 =
      [⟨"dispose", ["obs"]⟩] :=
  ⟨rfl,
    ((dispose_idempotent ⟨false, [("x", 1)], [⟨"r1", false⟩],
      [("dispose", "obs"), ("foo", "other")]⟩).2.2.2.2 rfl).2⟩

lemma strsOf_map (ss : List String) : strsOf (ss.map RArg.str) = some ss := by
  induction ss with
  | nil => rfl
  | cons s rest ih =>
      rw [List.map_cons, strsOf, ih]
      rfl

lemma splitReactionArgs_fn_first (f : Nat) (ss : List String) :
    splitReactionArgs (RArg.fn f :: ss.map RArg.str) = some (f, ss) := by
  simp [splitReactionArgs, strsOf_map]

lemma splitReactionArgs_fn_last (f : Nat) (ss : List String) :
    splitReactionArgs (ss.map RArg.str ++ [RArg.fn f]) = some (f, ss) := by
  cases ss with
  | nil => rfl
  | cons s rest =>
      simp only [List.map_cons, List.cons_append, splitReactionArgs,
        List.reverse_cons, List.reverse_append]
      simp [List.reverse_reverse, strsOf_map]
      exact strsOf_map (s :: rest)

/-- C10: `Component.reaction()` accepts the handler callable before or
after the connection strings — both argument orders create a reaction
with the same handler and the same connection strings. -/
theorem reaction_args_either_order (f : Nat) (ss : List String) :
    componentReaction (RArg.fn f :: ss.map RArg.str) =
      componentReaction (ss.map RArg.str ++ [RArg.fn f]) ∧
    componentReaction (RArg.fn f :: ss.map RArg.str) = some ⟨f, ss⟩ := by
  constructor
  · rw [componentReaction, componentReaction, splitReactionArgs_fn_first,
      splitReactionArgs_fn_last]
  · rw [componentReaction, splitReactionArgs_fn_first]
    rfl

end FlexxEvent
